import Mathlib

/-!
# Request signing in `go/api/signature.go`

A shallow embedding of the three functions of the file (`sign`, `call`, `main`)
together with the standard-library primitives they are composed of:

* `crypto/sha256` and `crypto/hmac` are embedded as executable functions on byte lists
  (a byte is a `Nat` below 256, a 32-bit word a `Nat` reduced `% 2 ^ 32`);
* `encoding/base64` (`StdEncoding`) is embedded with the decoder's actual leniency
  (carriage returns and line feeds are skipped, trailing padding bits are not checked);
* `strconv.FormatInt` in base 10;
* `net/http` and `encoding/json` are the environment: request construction checks the
  method token, while URL parsing, the transport and the JSON decoder are fields of
  `World`; every request handed to the transport is recorded in a trace.

Go strings are modelled by Lean strings, and `[]byte(s)` by the UTF-8 encoding of `s`.
-/

namespace Signature

/-! ## Bytes and words -/

/-- The conversion `[]byte(s)` of a string: its UTF-8 bytes. -/
def stringBytes (s : String) : List Nat :=
  s.data.flatMap fun c => (String.utf8EncodeChar c).map UInt8.toNat

/-- Truncation to `uint32`. -/
def u32 (x : Nat) : Nat := x % 2 ^ 32

/-- The function `bits.RotateLeft32(x, -n)`: rotation to the right by `n` bits. -/
def rotr (x n : Nat) : Nat := ((x >>> n) ||| (x <<< (32 - n))) % 2 ^ 32

/-- The four big-endian bytes of a 32-bit word. -/
def be32 (x : Nat) : List Nat :=
  [x >>> 24 % 256, x >>> 16 % 256, x >>> 8 % 256, x % 256]

/-- The eight big-endian bytes of a 64-bit word (`binary.BigEndian.PutUint64`). -/
def be64 (x : Nat) : List Nat :=
  [x >>> 56 % 256, x >>> 48 % 256, x >>> 40 % 256, x >>> 32 % 256,
   x >>> 24 % 256, x >>> 16 % 256, x >>> 8 % 256, x % 256]

/-! ## crypto/sha256 -/

/-- The round constants `_K`. -/
def K256 : List Nat :=
  [0x428a2f98, 0x71374491, 0xb5c0fbcf, 0xe9b5dba5, 0x3956c25b, 0x59f111f1, 0x923f82a4, 0xab1c5ed5,
   0xd807aa98, 0x12835b01, 0x243185be, 0x550c7dc3, 0x72be5d74, 0x80deb1fe, 0x9bdc06a7, 0xc19bf174,
   0xe49b69c1, 0xefbe4786, 0x0fc19dc6, 0x240ca1cc, 0x2de92c6f, 0x4a7484aa, 0x5cb0a9dc, 0x76f988da,
   0x983e5152, 0xa831c66d, 0xb00327c8, 0xbf597fc7, 0xc6e00bf3, 0xd5a79147, 0x06ca6351, 0x14292967,
   0x27b70a85, 0x2e1b2138, 0x4d2c6dfc, 0x53380d13, 0x650a7354, 0x766a0abb, 0x81c2c92e, 0x92722c85,
   0xa2bfe8a1, 0xa81a664b, 0xc24b8b70, 0xc76c51a3, 0xd192e819, 0xd6990624, 0xf40e3585, 0x106aa070,
   0x19a4c116, 0x1e376c08, 0x2748774c, 0x34b0bcb5, 0x391c0cb3, 0x4ed8aa4a, 0x5b9cca4f, 0x682e6ff3,
   0x748f82ee, 0x78a5636f, 0x84c87814, 0x8cc70208, 0x90befffa, 0xa4506ceb, 0xbef9a3f7, 0xc67178f2]

/-- The chaining value `dig.h` of a SHA-256 digest: eight 32-bit words. -/
structure HashState where
  h0 : Nat
  h1 : Nat
  h2 : Nat
  h3 : Nat
  h4 : Nat
  h5 : Nat
  h6 : Nat
  h7 : Nat
  deriving DecidableEq, Repr

/-- The initial chaining value (`init0` .. `init7`). -/
def sha256Init : HashState :=
  ⟨0x6a09e667, 0xbb67ae85, 0x3c6ef372, 0xa54ff53a, 0x510e527f, 0x9b05688c, 0x1f83d9ab, 0x5be0cd19⟩

/-- The first sixteen schedule words: the block read as big-endian 32-bit words. -/
def blockWords : List Nat → List Nat
  | a :: b :: c :: d :: rest => (a <<< 24 ||| b <<< 16 ||| c <<< 8 ||| d) :: blockWords rest
  | _ => []

/-- One step of the schedule loop `for i := 16; i < 64; i++`, appending `w[i]`. -/
def scheduleStep (w : List Nat) : List Nat :=
  let i := w.length
  let v1 := w.getD (i - 2) 0
  let t1 := rotr v1 17 ^^^ rotr v1 19 ^^^ (v1 >>> 10)
  let v2 := w.getD (i - 15) 0
  let t2 := rotr v2 7 ^^^ rotr v2 18 ^^^ (v2 >>> 3)
  w ++ [u32 (t1 + w.getD (i - 7) 0 + t2 + w.getD (i - 16) 0)]

/-- The 64-word message schedule of one 64-byte block. -/
def schedule (block : List Nat) : List Nat :=
  Nat.iterate scheduleStep 48 (blockWords block)

/-- One round of the compression loop with round constant `k` and schedule word `w`. -/
def round (s : HashState) (k w : Nat) : HashState :=
  let t1 := s.h7 + (rotr s.h4 6 ^^^ rotr s.h4 11 ^^^ rotr s.h4 25)
    + ((s.h4 &&& s.h5) ^^^ ((s.h4 ^^^ 0xffffffff) &&& s.h6)) + k + w
  let t2 := (rotr s.h0 2 ^^^ rotr s.h0 13 ^^^ rotr s.h0 22)
    + ((s.h0 &&& s.h1) ^^^ (s.h0 &&& s.h2) ^^^ (s.h1 &&& s.h2))
  ⟨u32 (t1 + t2), s.h0, s.h1, s.h2, u32 (s.h3 + t1), s.h4, s.h5, s.h6⟩

/-- The body of `blockGeneric` for one 64-byte block. -/
def compress (s : HashState) (block : List Nat) : HashState :=
  let r := (List.zip K256 (schedule block)).foldl (fun acc kw => round acc kw.1 kw.2) s
  ⟨u32 (s.h0 + r.h0), u32 (s.h1 + r.h1), u32 (s.h2 + r.h2), u32 (s.h3 + r.h3),
   u32 (s.h4 + r.h4), u32 (s.h5 + r.h5), u32 (s.h6 + r.h6), u32 (s.h7 + r.h7)⟩

/-- The loop `for len(p) >= chunk` of `blockGeneric`; `fuel` bounds the number of blocks. -/
def blocks : Nat → HashState → List Nat → HashState
  | 0, s, _ => s
  | fuel + 1, s, p => if 64 ≤ p.length then blocks fuel (compress s (p.take 64)) (p.drop 64) else s

/-- The padding written by `checkSum`: a one bit, zero bits up to 56 bytes modulo 64, and
the length in bits as a big-endian `uint64`. -/
def sha256Padding (len : Nat) : List Nat :=
  let t := if len % 64 < 56 then 56 - len % 64 else 64 + 56 - len % 64
  0x80 :: List.replicate (t - 1) 0 ++ be64 (len * 8 % 2 ^ 64)

/-- The SHA-256 checksum of a byte string, as `Write` followed by `Sum(nil)` computes it. -/
def sha256 (msg : List Nat) : List Nat :=
  let p := msg ++ sha256Padding msg.length
  let s := blocks (p.length / 64 + 1) sha256Init p
  be32 s.h0 ++ be32 s.h1 ++ be32 s.h2 ++ be32 s.h3 ++ be32 s.h4 ++ be32 s.h5 ++ be32 s.h6 ++ be32 s.h7

/-! ## crypto/hmac -/

/-- A running `sha256` digest, abstracted to the bytes written into it so far. -/
structure Digest where
  written : List Nat
  deriving DecidableEq, Repr

/-- The constructor `sha256.New()`. -/
def Digest.New : Digest := ⟨[]⟩

/-- The method `Write` of a digest. -/
def Digest.Write (d : Digest) (p : List Nat) : Digest := ⟨d.written ++ p⟩

/-- The method `Sum(nil)` of a digest. -/
def Digest.Sum (d : Digest) : List Nat := sha256 d.written

/-- The method `Reset` of a digest. -/
def Digest.Reset (_ : Digest) : Digest := ⟨[]⟩

/-- The block size of SHA-256 in bytes. -/
def blockSize : Nat := 64

/-- The struct `hmac`: the two pads and the inner and outer digests. -/
structure HMAC where
  opad : List Nat
  ipad : List Nat
  outer : Digest
  inner : Digest
  deriving DecidableEq, Repr

/-- The result of `copy(pad, key)` into a zeroed pad of `blockSize` bytes. -/
def copyKey (key : List Nat) : List Nat :=
  (key ++ List.replicate (blockSize - key.length) 0).take blockSize

/-- The constructor `hmac.New(sha256.New, key)`: a key longer than a block is hashed first, the
pads are the zero-extended key xored with `0x36` and `0x5c`, and the inner digest is started on
the inner pad. -/
def HMAC.New (key : List Nat) : HMAC :=
  let outer := Digest.New
  let inner := Digest.New
  let (outer, key) :=
    if key.length > blockSize then
      let outer := outer.Write key
      (outer, outer.Sum)
    else (outer, key)
  let ipad := (copyKey key).map (· ^^^ 0x36)
  let opad := (copyKey key).map (· ^^^ 0x5c)
  ⟨opad, ipad, outer, inner.Write ipad⟩

/-- The method `Write` of an `hmac`: the bytes go to the inner digest. -/
def HMAC.Write (h : HMAC) (p : List Nat) : HMAC := { h with inner := h.inner.Write p }

/-- The method `Sum(nil)` of an `hmac`: the outer digest is reset, fed the outer pad and the
inner checksum, and summed. -/
def HMAC.Sum (h : HMAC) : List Nat :=
  let inSum := h.inner.Sum
  let outer := h.outer.Reset
  let outer := outer.Write h.opad
  (outer.Write inSum).Sum

/-! ## encoding/base64, `StdEncoding` -/

/-- The alphabet `encodeStd`. -/
def encodeStd : List Char :=
  "ABCDEFGHIJKLMNOPQRSTUVWXYZabcdefghijklmnopqrstuvwxyz0123456789+/".data

/-- The padding character `StdPadding`. -/
def padChar : Char := '='

/-- The table lookup `enc.encode[i]`. -/
def encodeChar (i : Nat) : Char := encodeStd.getD i 'A'

/-- The table lookup `enc.decodeMap[in]`; `none` stands for the entry `0xff`. -/
def decodeMap (c : Char) : Option Nat :=
  let i := encodeStd.indexOf c
  if i < 64 then some i else none

/-- The method `Encode`: three bytes give four characters, and a final group of one or two
bytes is padded with `=`. -/
def encode : List Nat → List Char
  | a :: b :: c :: rest =>
      let val := a <<< 16 ||| b <<< 8 ||| c
      encodeChar (val >>> 18 &&& 0x3F) :: encodeChar (val >>> 12 &&& 0x3F)
        :: encodeChar (val >>> 6 &&& 0x3F) :: encodeChar (val &&& 0x3F) :: encode rest
  | [a, b] =>
      let val := a <<< 16 ||| b <<< 8
      [encodeChar (val >>> 18 &&& 0x3F), encodeChar (val >>> 12 &&& 0x3F),
       encodeChar (val >>> 6 &&& 0x3F), padChar]
  | [a] =>
      let val := a <<< 16
      [encodeChar (val >>> 18 &&& 0x3F), encodeChar (val >>> 12 &&& 0x3F), padChar, padChar]
  | [] => []

/-- The method `EncodeToString` of `base64.StdEncoding`. -/
def EncodeToString (src : List Nat) : String := ⟨encode src⟩

/-- The errors the program can return. -/
inductive GoError where
  /-- The error `base64.CorruptInputError(offset)`. -/
  | corruptInput (offset : Nat)
  /-- The error `net/http: invalid method` of `http.NewRequest`. -/
  | invalidMethod (method : String)
  /-- An error of `url.Parse` inside `http.NewRequest`. -/
  | urlError (msg : String)
  /-- An error of `client.Do`: the transport failed or timed out. -/
  | transportError (msg : String)
  /-- An error of the JSON decoder. -/
  | jsonError (msg : String)
  deriving DecidableEq, Repr

/-- The test `in == '\n' || in == '\r'`. -/
def isNewline (c : Char) : Bool := c == '\n' || c == '\r'

/-- The loop `for si < len(src) && (src[si] == '\n' || src[si] == '\r') { si++ }`, on the
unread part of the source and the index `si`. -/
def skipNewlines : List Char → Nat → List Char × Nat
  | [], si => ([], si)
  | c :: rest, si => if isNewline c then skipNewlines rest (si + 1) else (c :: rest, si)

/-- The bytes a quantum of `dlen` sextets yields: `dlen - 1` bytes of the 24-bit value. -/
def quantumBytes (q : List Nat) : List Nat :=
  let val := q.getD 0 0 <<< 18 ||| q.getD 1 0 <<< 12 ||| q.getD 2 0 <<< 6 ||| q.getD 3 0
  [val >>> 16 % 256, val >>> 8 % 256, val % 256].take (q.length - 1)

/-- The end of a padded quantum: newlines are skipped, and anything after them is trailing
garbage, reported after the bytes of the quantum have been written. -/
def finishQuantum (rest : List Char) (si : Nat) (q out : List Nat) : List Nat × Option GoError :=
  let (rest, si) := skipNewlines rest si
  (out ++ quantumBytes q, if rest.isEmpty then none else some (.corruptInput si))

/-- The method `Decode`, one character at a time, as `decodeQuantum` reads them: `si` is the
index of the next character, `q` holds the sextets of the quantum being read (`j` is its
length) and `out` the bytes written so far. The result is the bytes written and the error. -/
def decodeLoop : List Char → Nat → List Nat → List Nat → List Nat × Option GoError
  | [], si, q, out =>
      if q.length = 0 then (out, none) else (out, some (.corruptInput (si - q.length)))
  | c :: rest, si, q, out =>
      match decodeMap c with
      | some v =>
          if q.length = 3 then decodeLoop rest (si + 1) [] (out ++ quantumBytes (q ++ [v]))
          else decodeLoop rest (si + 1) (q ++ [v]) out
      | none =>
          if isNewline c then decodeLoop rest (si + 1) q out
          else if c ≠ padChar then (out, some (.corruptInput si))
          else if q.length < 2 then (out, some (.corruptInput si))
          else if q.length = 2 then
            match skipNewlines rest (si + 1) with
            | ([], si) => (out, some (.corruptInput si))
            | (c :: rest, si) =>
                if c ≠ padChar then (out, some (.corruptInput (si - 1)))
                else finishQuantum rest (si + 1) q out
          else finishQuantum rest (si + 1) q out

/-- The method `DecodeString` of `base64.StdEncoding`: the decoded bytes and the error. -/
def DecodeString (s : String) : List Nat × Option GoError :=
  decodeLoop s.data 0 [] []

/-! ## strconv -/

/-- The digit loop of `formatBits` in base 10: the digits of `u` are written in front of `a`,
least significant first; `fuel` bounds the number of digits. -/
def formatBitsLoop : Nat → Nat → List Char → List Char
  | 0, _, a => a
  | fuel + 1, u, a =>
      if u < 10 then Nat.digitChar u :: a
      else formatBitsLoop fuel (u / 10) (Nat.digitChar (u % 10) :: a)

/-- The decimal digits of an unsigned value, most significant first (`formatBits`). -/
def formatBits (u : Nat) : List Char := formatBitsLoop (u + 1) u []

/-- The function `strconv.FormatInt(i, 10)`. -/
def FormatInt (i : Int) : String :=
  if i < 0 then ⟨'-' :: formatBits i.natAbs⟩ else ⟨formatBits i.natAbs⟩

/-! ## signature.go -/

/-- The constant `HOST`. -/
def HOST : String := "https://api.test.paradigm.co"

/-- The three results of `sign`: `(timestamp, signature, err)`. -/
structure SignResult where
  timestamp : String
  signature : String
  err : Option GoError
  deriving DecidableEq, Repr

/-- The function `sign`; `now` is the reading `time.Now().UnixMilli()` of the clock. -/
def sign (now : Int) (method path secret message : String) : SignResult :=
  let (secretBase64, err) := DecodeString secret
  if err ≠ none then
    ⟨"", "", err⟩
  else
    let timestampStr := FormatInt now
    let data := timestampStr ++ "\n" ++ method ++ "\n" ++ path ++ "\n" ++ message
    let h := HMAC.New secretBase64
    let h := h.Write (stringBytes data)
    let signature := EncodeToString h.Sum
    ⟨timestampStr, signature, none⟩

/-! ### net/http and encoding/json: the environment of `call` -/

/-- The characters of an HTTP token (`httpguts.IsTokenRune`): ASCII letters and digits and
the marks ``!#$%&'*+-.^_`|~``. -/
def isTokenRune (c : Char) : Bool :=
  c.isAlphanum ||
    ['!', '#', '$', '%', '&', Char.ofNat 39, '*', '+', '-', '.', '^', '_', Char.ofNat 96, '|', '~'].contains c

/-- The check `validMethod` of `net/http`: a non-empty token. -/
def validMethod (method : String) : Bool :=
  decide (method.length > 0) && method.data.all isTokenRune

/-- The loop of `canonicalMIMEHeaderKey`: a letter is made upper case at the start and after a
dash, and lower case elsewhere. -/
def canonicalLoop : Bool → List Char → List Char
  | _, [] => []
  | upper, c :: cs =>
      let c := if upper && c.isLower then c.toUpper else if !upper && c.isUpper then c.toLower else c
      c :: canonicalLoop (c == '-') cs

/-- The function `textproto.CanonicalMIMEHeaderKey`: a key of token characters is put in
canonical case, any other key is returned unchanged. -/
def CanonicalMIMEHeaderKey (s : String) : String :=
  if s.data.all isTokenRune then ⟨canonicalLoop true s.data⟩ else s

/-- The type `http.Header`, a `map[string][]string`: the values of each key present. -/
abbrev Header := List (String × List String)

/-- The method `Header.Set`: the values of the canonical form of `key` are replaced by the
single value `value`. -/
def Header.Set (h : Header) (key value : String) : Header :=
  let key := CanonicalMIMEHeaderKey key
  h.filter (fun kv => kv.1 ≠ key) ++ [(key, [value])]

/-- The method `Header.Values`: the values of the canonical form of `key`, `none` when the
key is absent. -/
def Header.Values (h : Header) (key : String) : Option (List String) :=
  h.lookup (CanonicalMIMEHeaderKey key)

/-- The struct `http.Request`, as far as `call` fills it in; `URL` is the string that was parsed. -/
structure Request where
  Method : String
  URL : String
  Body : List Nat
  Header : Header
  deriving DecidableEq, Repr

/-- A decoded JSON value (`interface{}`); a number is kept as its literal. -/
inductive JsonValue where
  | null
  | bool (b : Bool)
  | number (literal : String)
  | string (s : String)
  | array (items : List JsonValue)
  | object (fields : List (String × JsonValue))

/-- The type `map[string]interface{}` of the result of `call`. -/
abbrev JsonMap := List (String × JsonValue)

/-- What `call` reads from outside the program: the clock, the verdict of `url.Parse` on a
string (`none` when it parses), the transport behind `client.Do` (the body of the response, or
an error such as the ten-second timeout) and the JSON decoder (the decoded map, `none` for a
nil map, or an error). -/
structure World where
  now : Int
  urlParse : String → Option GoError
  clientDo : Request → Except GoError (List Nat)
  jsonDecode : List Nat → Except GoError (Option JsonMap)

/-- The function `http.NewRequest(method, url, body)`: an empty method means `GET`, the
method must be a token and the URL must parse. -/
def NewRequest (w : World) (method url : String) (body : List Nat) : Except GoError Request :=
  let method := if method = "" then "GET" else method
  if !validMethod method then .error (.invalidMethod method)
  else
    match w.urlParse url with
    | some e => .error e
    | none => .ok ⟨method, url, body, []⟩

/-- The results of `call`, `(result, err)`, together with the requests it handed to the
transport, in order. -/
structure CallResult where
  result : Option JsonMap
  err : Option GoError
  sent : List Request

/-- The function `call`. -/
def call (w : World) (url method path accessKey secret message : String) : CallResult :=
  match NewRequest w method (url ++ path) (stringBytes message) with
  | .error err => ⟨none, some err, []⟩
  | .ok request =>
    -- Sign the request
    let s := sign w.now method path secret message
    match s.err with
    | some err => ⟨none, some err, []⟩
    | none =>
      -- Assign headers
      let header := request.Header.Set "Authorization" ("Bearer " ++ accessKey)
      let header := header.Set "Paradigm-API-Timestamp" s.timestamp
      let header := header.Set "Content-Type" "application/json"
      let header := header.Set "Paradigm-API-Signature" s.signature
      let request := { request with Header := header }
      -- Send the request
      match w.clientDo request with
      | .error err => ⟨none, some err, [request]⟩
      | .ok body =>
        match w.jsonDecode body with
        | .error err => ⟨none, some err, [request]⟩
        | .ok result => ⟨result, none, [request]⟩

/-- What `main` does that can be observed, in order. -/
inductive Event where
  /-- The output of `fmt.Printf`. -/
  | printf (s : String)
  /-- An invocation of `call` with its six arguments. -/
  | callInvoked (url method path accessKey secret message : String)
  /-- A request handed to the transport by `call`. -/
  | send (request : Request)
  /-- The line logged by `log.Fatal(err)`. -/
  | logFatal (err : GoError)
  /-- The line logged by `log.Println(result)`. -/
  | logPrintln (result : Option JsonMap)

/-- How `main` ends: it returns, or `log.Fatal` exits the process with status 1. -/
inductive Exit where
  | returned
  | fatal
  deriving DecidableEq, Repr

/-- The run of `main`: its events and how it ended. -/
structure MainResult where
  events : List Event
  exit : Exit

/-- The function `main`; `args` is `os.Args[1:]`. The events are the usage message, or the
invocation of `call`, the requests it sent, and the line logged at the end. -/
def main (w : World) (args : List String) : MainResult :=
  if args.length ≠ 2 then
    ⟨[.printf "Usage <API key> <Secret>"], .returned⟩
  else
    let accessKey := args.getD 0 ""
    let secret := args.getD 1 ""
    let method := "POST"
    let path := "/echo/"
    let message := "\x7b\"message\": \"hello\"\x7d"
    let r := call w HOST method path accessKey secret message
    let events := Event.callInvoked HOST method path accessKey secret message :: r.sent.map Event.send
    match r.err with
    | some err => ⟨events ++ [.logFatal err], .fatal⟩
    | none => ⟨events ++ [.logPrintln r.result], .returned⟩

/-- Whether an event is an invocation of `call`. -/
def Event.isCall : Event → Bool
  | .callInvoked .. => true
  | _ => false

/-- Whether an event is a request handed to the transport. -/
def Event.isSend : Event → Bool
  | .send _ => true
  | _ => false

/-! ## The specification's vocabulary -/

/-- The canonical string of the specification:
`timestamp + "\n" + method + "\n" + path + "\n" + body`. -/
def canonicalString (timestamp method path body : String) : String :=
  timestamp ++ "\n" ++ method ++ "\n" ++ path ++ "\n" ++ body

/-- The key block of HMAC (RFC 2104): a key longer than the block is replaced by its hash,
and the key is extended with zero bytes to the block size. -/
def hmacKeyBlock (key : List Nat) : List Nat :=
  let key := if key.length > 64 then sha256 key else key
  key ++ List.replicate (64 - key.length) 0

/-- The function HMAC-SHA256 of the specification, by the formula of RFC 2104:
`H((K xor opad) || H((K xor ipad) || data))`. -/
def hmacSHA256 (key data : List Nat) : List Nat :=
  let k := hmacKeyBlock key
  sha256 (k.map (· ^^^ 0x5c) ++ sha256 (k.map (· ^^^ 0x36) ++ data))

/-- The value of a string of decimal digits, read most significant digit first. -/
def decimalValue (cs : List Char) : Nat :=
  cs.foldl (fun acc ch => 10 * acc + (ch.toNat - 48)) 0

/-- A world for examples: the clock reads `now`, every URL parses, the transport answers
with an empty body and the decoder yields a nil map. -/
def mockWorld (now : Int) : World :=
  ⟨now, fun _ => none, fun _ => .ok [], fun _ => .ok none⟩

/-! ## Lemmas on the primitives -/

/-! ### SHA-256 and HMAC -/

theorem be32_length (x : Nat) : (be32 x).length = 4 := rfl

theorem sha256_length (msg : List Nat) : (sha256 msg).length = 32 := by
  simp [sha256, be32_length]

theorem be32_lt (x : Nat) : ∀ b ∈ be32 x, b < 256 := by
  intro b hb
  simp only [be32, List.mem_cons, List.mem_singleton, List.not_mem_nil, or_false] at hb
  rcases hb with h | h | h | h <;> subst h <;> exact Nat.mod_lt _ (by norm_num)

theorem sha256_lt (msg : List Nat) : ∀ b ∈ sha256 msg, b < 256 := by
  intro b hb
  simp only [sha256, List.mem_append] at hb
  rcases hb with ((((((h | h) | h) | h) | h) | h) | h) | h <;> exact be32_lt _ b h

/-- The fuel of `blocks` is enough as soon as it exceeds the number of whole blocks. -/
theorem blocks_fuel (fuel₁ fuel₂ : Nat) (s : HashState) (p : List Nat)
    (h₁ : p.length / 64 < fuel₁) (h₂ : p.length / 64 < fuel₂) :
    blocks fuel₁ s p = blocks fuel₂ s p := by
  induction fuel₁ generalizing fuel₂ s p with
  | zero => omega
  | succ n ih =>
    cases fuel₂ with
    | zero => omega
    | succ m =>
      simp only [blocks]
      split
      · apply ih <;> simp only [List.length_drop] <;> omega
      · rfl

theorem copyKey_eq (key : List Nat) (h : key.length ≤ 64) :
    copyKey key = key ++ List.replicate (64 - key.length) 0 := by
  unfold copyKey blockSize
  apply List.take_of_length_le
  simp; omega

theorem hmac_eq (key data : List Nat) :
    ((HMAC.New key).Write data).Sum = hmacSHA256 key data := by
  unfold HMAC.New hmacSHA256 hmacKeyBlock
  by_cases h : key.length > 64
  · have h32 : (sha256 key).length ≤ 64 := by rw [sha256_length]; norm_num
    simp [HMAC.Write, HMAC.Sum, Digest.New, Digest.Write, Digest.Sum, Digest.Reset, blockSize, h,
      copyKey_eq _ h32]
  · have h64 : key.length ≤ 64 := by omega
    simp [HMAC.Write, HMAC.Sum, Digest.New, Digest.Write, Digest.Sum, Digest.Reset, blockSize, h,
      copyKey_eq _ h64]

/-! ### Base64 -/

theorem decodeMap_encodeChar : ∀ i < 64, decodeMap (encodeChar i) = some i := by
  decide

theorem decodeMap_padChar : decodeMap padChar = none := by decide

theorem shl_or (a b k : Nat) (hb : b < 2 ^ k) : a <<< k ||| b = a * 2 ^ k + b := by
  rw [Nat.shiftLeft_eq, Nat.mul_comm a, ← Nat.mul_add_lt_is_or hb]

theorem and_63 (x : Nat) : x &&& 0x3F = x % 64 :=
  Nat.and_pow_two_sub_one_eq_mod x 6

theorem val3 (a b c : Nat) (hb : b < 256) (hc : c < 256) :
    a <<< 16 ||| b <<< 8 ||| c = a * 65536 + b * 256 + c := by
  have h1 : a <<< 16 ||| b <<< 8 = (a * 256 + b) <<< 8 := by
    rw [Nat.shiftLeft_eq b, shl_or a (b * 2 ^ 8) 16 (by omega), Nat.shiftLeft_eq]; omega
  rw [h1, shl_or _ c 8 (by omega)]; omega

theorem val4 (s0 s1 s2 s3 : Nat) (h1 : s1 < 64) (h2 : s2 < 64) (h3 : s3 < 64) :
    s0 <<< 18 ||| s1 <<< 12 ||| s2 <<< 6 ||| s3 = s0 * 262144 + s1 * 4096 + s2 * 64 + s3 := by
  have e1 : s0 <<< 18 ||| s1 <<< 12 = (s0 * 64 + s1) <<< 12 := by
    rw [Nat.shiftLeft_eq s1, shl_or s0 (s1 * 2 ^ 12) 18 (by omega), Nat.shiftLeft_eq]; omega
  have e2 : (s0 * 64 + s1) <<< 12 ||| s2 <<< 6 = ((s0 * 64 + s1) * 64 + s2) <<< 6 := by
    rw [Nat.shiftLeft_eq s2, shl_or _ (s2 * 2 ^ 6) 12 (by omega), Nat.shiftLeft_eq]; omega
  rw [e1, e2, shl_or _ s3 6 (by omega)]; omega

theorem quantum3 (a b c : Nat) (ha : a < 256) (hb : b < 256) (hc : c < 256) :
    quantumBytes [(a <<< 16 ||| b <<< 8 ||| c) >>> 18 &&& 0x3F,
      (a <<< 16 ||| b <<< 8 ||| c) >>> 12 &&& 0x3F,
      (a <<< 16 ||| b <<< 8 ||| c) >>> 6 &&& 0x3F,
      (a <<< 16 ||| b <<< 8 ||| c) &&& 0x3F] = [a, b, c] := by
  simp only [quantumBytes, val3 a b c hb hc, and_63, Nat.shiftRight_eq_div_pow, List.getD_cons_zero,
    List.getD_cons_succ, List.length_cons, List.length_nil]
  rw [val4 _ _ _ _ (Nat.mod_lt _ (by norm_num)) (Nat.mod_lt _ (by norm_num))
    (Nat.mod_lt _ (by norm_num))]
  simp only [List.take, Nat.reduceAdd, Nat.reduceSub, Nat.reducePow]
  congr 1
  · omega
  congr 1
  · omega
  congr 1
  omega

theorem val2 (a b : Nat) (hb : b < 256) : a <<< 16 ||| b <<< 8 = a * 65536 + b * 256 := by
  have h := val3 a b 0 hb (by norm_num)
  simpa using h

theorem quantum2 (a b : Nat) (ha : a < 256) (hb : b < 256) :
    quantumBytes [(a <<< 16 ||| b <<< 8) >>> 18 &&& 0x3F,
      (a <<< 16 ||| b <<< 8) >>> 12 &&& 0x3F,
      (a <<< 16 ||| b <<< 8) >>> 6 &&& 0x3F] = [a, b] := by
  simp only [quantumBytes, val2 a b hb, and_63, Nat.shiftRight_eq_div_pow, List.getD_cons_zero,
    List.getD_cons_succ, List.length_cons, List.length_nil, List.getD_nil]
  rw [val4 _ _ _ _ (Nat.mod_lt _ (by norm_num)) (Nat.mod_lt _ (by norm_num)) (by norm_num)]
  simp only [List.take, Nat.reduceAdd, Nat.reduceSub, Nat.reducePow]
  congr 1
  · omega
  congr 1
  omega

theorem quantum1 (a : Nat) (ha : a < 256) :
    quantumBytes [(a <<< 16) >>> 18 &&& 0x3F, (a <<< 16) >>> 12 &&& 0x3F] = [a] := by
  simp only [quantumBytes, Nat.shiftLeft_eq, and_63, Nat.shiftRight_eq_div_pow,
    List.getD_cons_zero, List.getD_cons_succ, List.length_cons, List.length_nil, List.getD_nil]
  have h := val4 (a * 2 ^ 16 / 2 ^ 18 % 64) (a * 2 ^ 16 / 2 ^ 12 % 64) 0 0
    (Nat.mod_lt _ (by norm_num)) (by norm_num) (by norm_num)
  simp only [Nat.shiftLeft_eq] at h
  rw [h]
  simp only [List.take, Nat.reduceAdd, Nat.reduceSub, Nat.reducePow]
  congr 1
  omega

theorem decodeLoop_sextet (v : Nat) (hv : v < 64) (rest : List Char) (si : Nat) (q out : List Nat) :
    decodeLoop (encodeChar v :: rest) si q out =
      if q.length = 3 then decodeLoop rest (si + 1) [] (out ++ quantumBytes (q ++ [v]))
      else decodeLoop rest (si + 1) (q ++ [v]) out := by
  rw [decodeLoop, decodeMap_encodeChar v hv]

theorem and63_lt (x : Nat) : x &&& 0x3F < 64 := by
  rw [and_63]; exact Nat.mod_lt _ (by norm_num)

theorem decodeLoop_next (v : Nat) (hv : v < 64) (rest : List Char) (si : Nat) (q out : List Nat)
    (hq : q.length ≠ 3) :
    decodeLoop (encodeChar v :: rest) si q out = decodeLoop rest (si + 1) (q ++ [v]) out := by
  rw [decodeLoop_sextet v hv, if_neg hq]

theorem decodeLoop_last (v : Nat) (hv : v < 64) (rest : List Char) (si : Nat) (q out : List Nat)
    (hq : q.length = 3) :
    decodeLoop (encodeChar v :: rest) si q out =
      decodeLoop rest (si + 1) [] (out ++ quantumBytes (q ++ [v])) := by
  rw [decodeLoop_sextet v hv, if_pos hq]

theorem decodeLoop_encode (src : List Nat) (hsrc : ∀ b ∈ src, b < 256) (si : Nat) (out : List Nat) :
    decodeLoop (encode src) si [] out = (out ++ src, none) := by
  induction src using encode.induct generalizing si out with
  | case1 a b c rest ih =>
    have ha := hsrc a (by simp)
    have hb := hsrc b (by simp)
    have hc := hsrc c (by simp)
    simp only [encode]
    rw [decodeLoop_next _ (and63_lt _) _ _ _ _ (by simp),
      decodeLoop_next _ (and63_lt _) _ _ _ _ (by simp),
      decodeLoop_next _ (and63_lt _) _ _ _ _ (by simp),
      decodeLoop_last _ (and63_lt _) _ _ _ _ (by simp)]
    simp only [List.nil_append, List.cons_append]
    rw [quantum3 a b c ha hb hc, ih (fun x hx => hsrc x (by simp [hx]))]
    simp
  | case2 a b =>
    have ha := hsrc a (by simp)
    have hb := hsrc b (by simp)
    simp only [encode]
    rw [decodeLoop_next _ (and63_lt _) _ _ _ _ (by simp),
      decodeLoop_next _ (and63_lt _) _ _ _ _ (by simp),
      decodeLoop_next _ (and63_lt _) _ _ _ _ (by simp)]
    simp only [List.nil_append, List.cons_append]
    rw [decodeLoop, decodeMap_padChar]
    simp [isNewline, padChar, finishQuantum, skipNewlines]
    exact quantum2 a b ha hb
  | case3 a =>
    have ha := hsrc a (by simp)
    simp only [encode]
    rw [decodeLoop_next _ (and63_lt _) _ _ _ _ (by simp),
      decodeLoop_next _ (and63_lt _) _ _ _ _ (by simp)]
    simp only [List.nil_append, List.cons_append]
    rw [decodeLoop, decodeMap_padChar]
    simp [isNewline, padChar, finishQuantum, skipNewlines]
    exact quantum1 a ha
  | case4 => simp [encode, decodeLoop]

theorem decode_encode (src : List Nat) (hsrc : ∀ b ∈ src, b < 256) :
    DecodeString (EncodeToString src) = (src, none) := by
  simpa [DecodeString, EncodeToString] using decodeLoop_encode src hsrc 0 []

theorem encodeChar_mem : ∀ i < 64, encodeChar i ∈ encodeStd := by decide

theorem encode_length (src : List Nat) : (encode src).length = (src.length + 2) / 3 * 4 := by
  induction src using encode.induct with
  | case1 a b c rest ih => simp only [encode, List.length_cons, ih]; omega
  | case2 a b => simp [encode]
  | case3 a => simp [encode]
  | case4 => simp [encode]

theorem encode_alphabet (src : List Nat) : ∀ ch ∈ encode src, ch ∈ encodeStd ∨ ch = padChar := by
  induction src using encode.induct with
  | case1 a b c rest ih =>
    intro ch hch
    simp only [encode, List.mem_cons] at hch
    rcases hch with h | h | h | h | h
    · exact Or.inl (h ▸ encodeChar_mem _ (and63_lt _))
    · exact Or.inl (h ▸ encodeChar_mem _ (and63_lt _))
    · exact Or.inl (h ▸ encodeChar_mem _ (and63_lt _))
    · exact Or.inl (h ▸ encodeChar_mem _ (and63_lt _))
    · exact ih ch h
  | case2 a b =>
    intro ch hch
    simp only [encode, List.mem_cons, List.mem_singleton, List.not_mem_nil, or_false] at hch
    rcases hch with h | h | h | h
    · exact Or.inl (h ▸ encodeChar_mem _ (and63_lt _))
    · exact Or.inl (h ▸ encodeChar_mem _ (and63_lt _))
    · exact Or.inl (h ▸ encodeChar_mem _ (and63_lt _))
    · exact Or.inr h
  | case3 a =>
    intro ch hch
    simp only [encode, List.mem_cons, List.mem_singleton, List.not_mem_nil, or_false] at hch
    rcases hch with h | h | h | h
    · exact Or.inl (h ▸ encodeChar_mem _ (and63_lt _))
    · exact Or.inl (h ▸ encodeChar_mem _ (and63_lt _))
    · exact Or.inr h
    · exact Or.inr h
  | case4 => simp [encode]

/-- With two bytes left over, the encoding is alphabet characters followed by one `=`. -/
theorem encode_mod2 (src : List Nat) (h : src.length % 3 = 2) :
    ∃ cs, encode src = cs ++ [padChar] ∧ ∀ ch ∈ cs, ch ∈ encodeStd := by
  induction src using encode.induct with
  | case1 a b c rest ih =>
    obtain ⟨cs, hcs, hmem⟩ := ih (by simp only [List.length_cons] at h; omega)
    simp only [encode, hcs]
    refine ⟨_ :: _ :: _ :: _ :: cs, rfl, ?_⟩
    intro ch hch
    simp only [List.mem_cons] at hch
    rcases hch with h | h | h | h | h
    · exact h ▸ encodeChar_mem _ (and63_lt _)
    · exact h ▸ encodeChar_mem _ (and63_lt _)
    · exact h ▸ encodeChar_mem _ (and63_lt _)
    · exact h ▸ encodeChar_mem _ (and63_lt _)
    · exact hmem ch h
  | case2 a b =>
    simp only [encode]
    refine ⟨[_, _, _], rfl, ?_⟩
    intro ch hch
    simp only [List.mem_cons, List.mem_singleton, List.not_mem_nil, or_false] at hch
    rcases hch with h | h | h
    · exact h ▸ encodeChar_mem _ (and63_lt _)
    · exact h ▸ encodeChar_mem _ (and63_lt _)
    · exact h ▸ encodeChar_mem _ (and63_lt _)
  | case3 a => simp at h
  | case4 => simp at h

/-! ### Decimal rendering -/

theorem formatBitsLoop_eq (fuel u : Nat) (a : List Char) (h : u < fuel) :
    formatBitsLoop fuel u a =
      (if u = 0 then ['0'] else ((Nat.digits 10 u).map Nat.digitChar).reverse) ++ a := by
  induction fuel generalizing u a with
  | zero => omega
  | succ fuel ih =>
    rw [formatBitsLoop]
    by_cases hu : u < 10
    · rw [if_pos hu]
      by_cases h0 : u = 0
      · subst h0; rfl
      · rw [if_neg h0, Nat.digits_of_lt 10 u h0 hu]; rfl
    · rw [if_neg hu, ih _ _ (by omega), if_neg (by omega), if_neg (by omega)]
      conv_rhs => rw [Nat.digits_def' (by norm_num) (by omega)]
      simp

theorem formatBits_eq_digits (u : Nat) :
    formatBits u = if u = 0 then ['0'] else ((Nat.digits 10 u).map Nat.digitChar).reverse := by
  rw [formatBits, formatBitsLoop_eq _ _ _ (by omega), List.append_nil]

theorem digitChar_isDigit : ∀ d < 10, (Nat.digitChar d).isDigit = true := by decide

theorem digitChar_toNat : ∀ d < 10, (Nat.digitChar d).toNat - 48 = d := by decide

theorem digitChar_zero : ∀ d < 10, Nat.digitChar d = '0' → d = 0 := by decide

theorem formatBits_ne_nil (u : Nat) : formatBits u ≠ [] := by
  rw [formatBits_eq_digits]
  split
  · simp
  · rename_i h
    simp [Nat.digits_eq_nil_iff_eq_zero, h]

theorem formatBits_isDigit (u : Nat) : ∀ ch ∈ formatBits u, ch.isDigit = true := by
  rw [formatBits_eq_digits]
  split
  · intro ch hch
    simp only [List.mem_singleton] at hch
    subst hch; decide
  · intro ch hch
    simp only [List.mem_reverse, List.mem_map] at hch
    obtain ⟨d, hd, rfl⟩ := hch
    exact digitChar_isDigit d (Nat.digits_lt_base (by norm_num) hd)

theorem decimalValue_map (ds : List Nat) (hds : ∀ d ∈ ds, d < 10) :
    decimalValue ((ds.map Nat.digitChar).reverse) = Nat.ofDigits 10 ds := by
  induction ds with
  | nil => rfl
  | cons d ds ih =>
    have hd := digitChar_toNat d (hds d (by simp))
    have := ih (fun x hx => hds x (by simp [hx]))
    simp only [decimalValue, List.map_cons, List.reverse_cons, List.foldl_append, List.foldl_cons,
      List.foldl_nil, Nat.ofDigits_cons] at this ⊢
    rw [this, hd]; ring

theorem decimalValue_formatBits (u : Nat) : decimalValue (formatBits u) = u := by
  rw [formatBits_eq_digits]
  split
  · rename_i h; subst h; rfl
  · rw [decimalValue_map _ (fun d hd => Nat.digits_lt_base (by norm_num) hd), Nat.ofDigits_digits]

theorem formatBits_head (u : Nat) (hu : u ≠ 0) : (formatBits u).head? ≠ some '0' := by
  rw [formatBits_eq_digits]
  rw [if_neg hu]
  have hne : Nat.digits 10 u ≠ [] := by simp [Nat.digits_eq_nil_iff_eq_zero, hu]
  have hlast := Nat.getLast_digit_ne_zero 10 hu
  rw [List.head?_reverse, List.getLast?_map, List.getLast?_eq_getLast _ hne]
  simp only [Option.map_some', ne_eq, Option.some.injEq]
  intro h
  exact hlast (digitChar_zero _ (Nat.digits_lt_base (by norm_num) (List.getLast_mem hne)) h)

theorem isDigit_ne_newline (ch : Char) (h : ch.isDigit = true) : ch ≠ '\n' := by
  rintro rfl; revert h; decide

theorem FormatInt_of_nonneg (i : Int) (h : 0 ≤ i) : FormatInt i = ⟨formatBits i.natAbs⟩ := by
  rw [FormatInt, if_neg (by omega)]

theorem FormatInt_of_neg (i : Int) (h : i < 0) : FormatInt i = ⟨'-' :: formatBits i.natAbs⟩ := by
  rw [FormatInt, if_pos h]

theorem FormatInt_no_newline (i : Int) : '\n' ∉ (FormatInt i).data := by
  intro hmem
  by_cases h : i < 0
  · rw [FormatInt_of_neg i h] at hmem
    simp only [List.mem_cons] at hmem
    rcases hmem with h1 | h1
    · revert h1; decide
    · exact isDigit_ne_newline _ (formatBits_isDigit _ _ h1) rfl
  · rw [FormatInt_of_nonneg i (by omega)] at hmem
    exact isDigit_ne_newline _ (formatBits_isDigit _ _ hmem) rfl

theorem formatBits_injective (u v : Nat) (h : formatBits u = formatBits v) : u = v := by
  rw [← decimalValue_formatBits u, ← decimalValue_formatBits v, h]

theorem formatBits_head_isDigit (u : Nat) (rest : List Char) : formatBits u ≠ '-' :: rest := by
  intro h
  have := formatBits_isDigit u '-' (by rw [h]; simp)
  revert this; decide

theorem FormatInt_injective (i j : Int) (h : FormatInt i = FormatInt j) : i = j := by
  by_cases hi : i < 0 <;> by_cases hj : j < 0
  · rw [FormatInt_of_neg i hi, FormatInt_of_neg j hj] at h
    have := formatBits_injective _ _ (List.cons.inj (congrArg String.data h)).2
    omega
  · rw [FormatInt_of_neg i hi, FormatInt_of_nonneg j (by omega)] at h
    exact absurd (congrArg String.data h).symm (formatBits_head_isDigit _ _)
  · rw [FormatInt_of_nonneg i (by omega), FormatInt_of_neg j hj] at h
    exact absurd (congrArg String.data h) (formatBits_head_isDigit _ _)
  · rw [FormatInt_of_nonneg i (by omega), FormatInt_of_nonneg j (by omega)] at h
    have := formatBits_injective _ _ (congrArg String.data h)
    omega

/-! ### The canonical string -/

theorem split_at_newline (a₁ a₂ r₁ r₂ : List Char) (h₁ : '\n' ∉ a₁) (h₂ : '\n' ∉ a₂)
    (h : a₁ ++ '\n' :: r₁ = a₂ ++ '\n' :: r₂) : a₁ = a₂ ∧ r₁ = r₂ := by
  induction a₁ generalizing a₂ with
  | nil =>
    cases a₂ with
    | nil => simpa using h
    | cons y ys =>
      simp only [List.nil_append, List.cons_append, List.cons.injEq] at h
      exact absurd h.1 (fun e => h₂ (e ▸ List.mem_cons_self _ _))
  | cons x xs ih =>
    cases a₂ with
    | nil =>
      simp only [List.nil_append, List.cons_append, List.cons.injEq] at h
      exact absurd h.1 (fun e => h₁ (e ▸ List.mem_cons_self _ _))
    | cons y ys =>
      simp only [List.cons_append, List.cons.injEq] at h
      obtain ⟨e, hr⟩ := ih ys (fun hm => h₁ (by simp [hm])) (fun hm => h₂ (by simp [hm])) h.2
      exact ⟨by rw [h.1, e], hr⟩

theorem canonicalString_data (ts method path body : String) :
    (canonicalString ts method path body).data =
      ts.data ++ '\n' :: (method.data ++ '\n' :: (path.data ++ '\n' :: body.data)) := by
  simp [canonicalString, String.data_append]

theorem canonicalString_injective (ts₁ m₁ p₁ b₁ ts₂ m₂ p₂ b₂ : String)
    (hts₁ : '\n' ∉ ts₁.data) (hts₂ : '\n' ∉ ts₂.data)
    (hm₁ : '\n' ∉ m₁.data) (hm₂ : '\n' ∉ m₂.data)
    (hp₁ : '\n' ∉ p₁.data) (hp₂ : '\n' ∉ p₂.data)
    (h : canonicalString ts₁ m₁ p₁ b₁ = canonicalString ts₂ m₂ p₂ b₂) :
    ts₁ = ts₂ ∧ m₁ = m₂ ∧ p₁ = p₂ ∧ b₁ = b₂ := by
  have hd := congrArg String.data h
  rw [canonicalString_data, canonicalString_data] at hd
  obtain ⟨e₁, hd⟩ := split_at_newline _ _ _ _ hts₁ hts₂ hd
  obtain ⟨e₂, hd⟩ := split_at_newline _ _ _ _ hm₁ hm₂ hd
  obtain ⟨e₃, e₄⟩ := split_at_newline _ _ _ _ hp₁ hp₂ hd
  exact ⟨String.ext e₁, String.ext e₂, String.ext e₃, String.ext e₄⟩

/-! ### The two branches of `sign` -/

theorem sign_of_decode_ok (now : Int) (method path secret message : String) (key : List Nat)
    (h : DecodeString secret = (key, none)) :
    sign now method path secret message =
      ⟨FormatInt now,
        EncodeToString (hmacSHA256 key
          (stringBytes (canonicalString (FormatInt now) method path message))),
        none⟩ := by
  simp only [sign, h, canonicalString, hmac_eq]
  simp

theorem sign_of_decode_error (now : Int) (method path secret message : String) (e : GoError)
    (h : (DecodeString secret).2 = some e) :
    sign now method path secret message = ⟨"", "", some e⟩ := by
  rcases hd : DecodeString secret with ⟨bytes, err⟩
  rw [hd] at h
  simp only at h
  subst h
  simp [sign, hd]

theorem hmacSHA256_length (key data : List Nat) : (hmacSHA256 key data).length = 32 :=
  sha256_length _

theorem hmacSHA256_lt (key data : List Nat) : ∀ b ∈ hmacSHA256 key data, b < 256 :=
  sha256_lt _

theorem EncodeToString_injective (x y : List Nat) (hx : ∀ b ∈ x, b < 256) (hy : ∀ b ∈ y, b < 256)
    (h : EncodeToString x = EncodeToString y) : x = y := by
  have h₁ := decode_encode x hx
  rw [h, decode_encode y hy] at h₁
  exact (Prod.mk.inj h₁).1.symm

/-! ### The branches of `call` -/

theorem NewRequest_ok (w : World) (method url : String) (body : List Nat) (req : Request)
    (h : NewRequest w method url body = .ok req) :
    req = ⟨if method = "" then "GET" else method, url, body, []⟩ := by
  unfold NewRequest at h
  simp only at h
  by_cases hv : (!validMethod (if method = "" then "GET" else method)) = true
  · rw [if_pos hv] at h; cases h
  · rw [if_neg hv] at h
    cases hu : w.urlParse url with
    | some e => rw [hu] at h; cases h
    | none => rw [hu] at h; cases h; rfl

/-- The header of the request `call` sends, given the two results of `sign`. -/
theorem header_set (accessKey timestamp signature : String) :
    Header.Set (Header.Set (Header.Set (Header.Set [] "Authorization" ("Bearer " ++ accessKey))
      "Paradigm-API-Timestamp" timestamp) "Content-Type" "application/json")
      "Paradigm-API-Signature" signature =
    [("Authorization", ["Bearer " ++ accessKey]), ("Paradigm-Api-Timestamp", [timestamp]),
     ("Content-Type", ["application/json"]), ("Paradigm-Api-Signature", [signature])] := by
  have h₁ : CanonicalMIMEHeaderKey "Authorization" = "Authorization" := by decide
  have h₂ : CanonicalMIMEHeaderKey "Paradigm-API-Timestamp" = "Paradigm-Api-Timestamp" := by decide
  have h₃ : CanonicalMIMEHeaderKey "Content-Type" = "Content-Type" := by decide
  have h₄ : CanonicalMIMEHeaderKey "Paradigm-API-Signature" = "Paradigm-Api-Signature" := by decide
  simp [Header.Set, List.filter, h₁, h₂, h₃, h₄]

/-- The four headers of a request sent by `call`, looked up by the names used in the source. -/
theorem header_values (authorization timestamp signature : String) :
    Header.Values [("Authorization", [authorization]), ("Paradigm-Api-Timestamp", [timestamp]),
      ("Content-Type", ["application/json"]), ("Paradigm-Api-Signature", [signature])]
      "Authorization" = some [authorization] ∧
    Header.Values [("Authorization", [authorization]), ("Paradigm-Api-Timestamp", [timestamp]),
      ("Content-Type", ["application/json"]), ("Paradigm-Api-Signature", [signature])]
      "Paradigm-API-Timestamp" = some [timestamp] ∧
    Header.Values [("Authorization", [authorization]), ("Paradigm-Api-Timestamp", [timestamp]),
      ("Content-Type", ["application/json"]), ("Paradigm-Api-Signature", [signature])]
      "Content-Type" = some ["application/json"] ∧
    Header.Values [("Authorization", [authorization]), ("Paradigm-Api-Timestamp", [timestamp]),
      ("Content-Type", ["application/json"]), ("Paradigm-Api-Signature", [signature])]
      "Paradigm-API-Signature" = some [signature] := by
  have h₁ : CanonicalMIMEHeaderKey "Authorization" = "Authorization" := by decide
  have h₂ : CanonicalMIMEHeaderKey "Paradigm-API-Timestamp" = "Paradigm-Api-Timestamp" := by decide
  have h₃ : CanonicalMIMEHeaderKey "Content-Type" = "Content-Type" := by decide
  have h₄ : CanonicalMIMEHeaderKey "Paradigm-API-Signature" = "Paradigm-Api-Signature" := by decide
  simp [Header.Values, List.lookup, h₁, h₂, h₃, h₄]

theorem call_of_newRequest_error (w : World) (url method path accessKey secret message : String)
    (e : GoError) (h : NewRequest w method (url ++ path) (stringBytes message) = .error e) :
    call w url method path accessKey secret message = ⟨none, some e, []⟩ := by
  simp only [call, h]

theorem call_of_sign_error (w : World) (url method path accessKey secret message : String)
    (req : Request) (e : GoError)
    (h : NewRequest w method (url ++ path) (stringBytes message) = .ok req)
    (hs : (sign w.now method path secret message).err = some e) :
    call w url method path accessKey secret message = ⟨none, some e, []⟩ := by
  simp only [call, h, hs]

theorem call_sent_of_ok (w : World) (url method path accessKey secret message : String)
    (req : Request)
    (h : NewRequest w method (url ++ path) (stringBytes message) = .ok req)
    (hs : (sign w.now method path secret message).err = none) :
    (call w url method path accessKey secret message).sent =
      [⟨if method = "" then "GET" else method, url ++ path, stringBytes message,
        [("Authorization", ["Bearer " ++ accessKey]),
         ("Paradigm-Api-Timestamp", [(sign w.now method path secret message).timestamp]),
         ("Content-Type", ["application/json"]),
         ("Paradigm-Api-Signature", [(sign w.now method path secret message).signature])]⟩] := by
  have hreq := NewRequest_ok w method (url ++ path) (stringBytes message) req h
  subst hreq
  simp only [call, h, hs, header_set]
  split
  · rfl
  · split <;> rfl

theorem call_sent_cases (w : World) (url method path accessKey secret message : String) :
    (call w url method path accessKey secret message).sent = [] ∨
    ((sign w.now method path secret message).err = none ∧
      (call w url method path accessKey secret message).sent =
        [⟨if method = "" then "GET" else method, url ++ path, stringBytes message,
          [("Authorization", ["Bearer " ++ accessKey]),
           ("Paradigm-Api-Timestamp", [(sign w.now method path secret message).timestamp]),
           ("Content-Type", ["application/json"]),
           ("Paradigm-Api-Signature", [(sign w.now method path secret message).signature])]⟩]) := by
  rcases hn : NewRequest w method (url ++ path) (stringBytes message) with e | req
  · exact Or.inl (by rw [call_of_newRequest_error _ _ _ _ _ _ _ e hn])
  · rcases hs : (sign w.now method path secret message).err with _ | e
    · exact Or.inr ⟨rfl, call_sent_of_ok _ _ _ _ _ _ _ req hn hs⟩
    · exact Or.inl (by rw [call_of_sign_error _ _ _ _ _ _ _ req e hn hs])

/-! ### The branches of `main` -/

theorem main_two (w : World) (accessKey secret : String) :
    main w [accessKey, secret] =
      match (call w HOST "POST" "/echo/" accessKey secret "\x7b\"message\": \"hello\"\x7d").err with
      | some err =>
        ⟨Event.callInvoked HOST "POST" "/echo/" accessKey secret "\x7b\"message\": \"hello\"\x7d" ::
          (call w HOST "POST" "/echo/" accessKey secret "\x7b\"message\": \"hello\"\x7d").sent.map
            Event.send ++ [.logFatal err], .fatal⟩
      | none =>
        ⟨Event.callInvoked HOST "POST" "/echo/" accessKey secret "\x7b\"message\": \"hello\"\x7d" ::
          (call w HOST "POST" "/echo/" accessKey secret "\x7b\"message\": \"hello\"\x7d").sent.map
            Event.send ++ [.logPrintln
              (call w HOST "POST" "/echo/" accessKey secret "\x7b\"message\": \"hello\"\x7d").result],
          .returned⟩ := rfl

theorem main_usage (w : World) (args : List String) (h : args.length ≠ 2) :
    main w args = ⟨[.printf "Usage <API key> <Secret>"], .returned⟩ := by
  rw [main, if_pos h]

theorem countP_isCall_send (l : List Request) : (l.map Event.send).countP Event.isCall = 0 := by
  induction l with
  | nil => rfl
  | cons x xs ih => simp [List.countP_cons, Event.isCall]

/-! ## The claims -/

/-- C1: for every method, path and message, every secret that `base64.StdEncoding` decodes (to
`key`) and every clock reading `now`, `sign` returns no error, returns as timestamp the base-10
rendering `FormatInt now` of the clock reading (an optional minus sign followed by decimal
digits whose value is the magnitude of `now`), and returns as signature the standard base64
encoding of HMAC-SHA256, keyed by the decoded secret, of the canonical string
`timestamp ++ "\n" ++ method ++ "\n" ++ path ++ "\n" ++ message` built on that same
timestamp. -/
theorem sign_correct (now : Int) (method path secret message : String) (key : List Nat)
    (hsecret : DecodeString secret = (key, none)) :
    (sign now method path secret message).err = none ∧
    (sign now method path secret message).timestamp = FormatInt now ∧
    (FormatInt now).data = (if now < 0 then ['-'] else []) ++ formatBits now.natAbs ∧
    decimalValue (formatBits now.natAbs) = now.natAbs ∧
    (sign now method path secret message).signature =
      EncodeToString (hmacSHA256 key (stringBytes
        (canonicalString (sign now method path secret message).timestamp method path message))) := by
  rw [sign_of_decode_ok now method path secret message key hsecret]
  refine ⟨rfl, rfl, ?_, decimalValue_formatBits _, rfl⟩
  by_cases h : now < 0
  · rw [FormatInt_of_neg now h, if_pos h]; rfl
  · rw [FormatInt_of_nonneg now (by omega), if_neg h]; rfl

/-- Witness of C1: the secret `base64("test-secret")` at the clock reading 1700000000123. -/
theorem sign_correct_witness :
    DecodeString "dGVzdC1zZWNyZXQ=" = (stringBytes "test-secret", none) ∧
    (sign 1700000000123 "POST" "/echo/" "dGVzdC1zZWNyZXQ=" "\x7b\"message\":\"hello\"\x7d").timestamp
      = "1700000000123" :=
  ⟨by decide,
    (sign_correct 1700000000123 "POST" "/echo/" "dGVzdC1zZWNyZXQ=" "\x7b\"message\":\"hello\"\x7d"
      (stringBytes "test-secret") (by decide)).2.1.trans (by decide)⟩

/-- C2: `sign` returns a non-nil error if and only if `base64.StdEncoding` does not decode the
secret, and then the error is the decoder's, and the timestamp and the signature returned are
both the empty string, whatever the clock, the method, the path and the message. -/
theorem sign_error_iff (now : Int) (method path secret message : String) :
    ((sign now method path secret message).err ≠ none ↔ (DecodeString secret).2 ≠ none) ∧
    ((DecodeString secret).2 ≠ none →
      (sign now method path secret message).err = (DecodeString secret).2 ∧
      (sign now method path secret message).timestamp = "" ∧
      (sign now method path secret message).signature = "") := by
  rcases hd : DecodeString secret with ⟨key, err⟩
  cases err with
  | none =>
    rw [sign_of_decode_ok now method path secret message key hd]
    simp
  | some e =>
    rw [sign_of_decode_error now method path secret message e (by rw [hd])]
    simp

/-- Witness of C2: the secret `!` is not base64, and `QQ==` is. -/
theorem sign_error_iff_witness :
    (sign 0 "POST" "/echo/" "!" "m").err = some (.corruptInput 0) ∧
    (sign 0 "POST" "/echo/" "!" "m").timestamp = "" ∧
    (sign 0 "POST" "/echo/" "!" "m").signature = "" ∧
    ¬ (sign 0 "POST" "/echo/" "QQ==" "m").err ≠ none :=
  ⟨((sign_error_iff 0 "POST" "/echo/" "!" "m").2 (by decide)).1.trans (by decide),
   ((sign_error_iff 0 "POST" "/echo/" "!" "m").2 (by decide)).2.1,
   ((sign_error_iff 0 "POST" "/echo/" "!" "m").2 (by decide)).2.2,
   fun h => ((sign_error_iff 0 "POST" "/echo/" "QQ==" "m").1.mp h) (by decide)⟩

/-- C3, as stated, fails: with a method that is not a token, `call` returns the error of
`http.NewRequest`, not the base64 error of the invalid secret. -/
theorem call_invalid_secret_counterexample :
    (DecodeString "!").2 = some (.corruptInput 0) ∧
    (call (mockWorld 0) HOST "BAD METHOD" "/echo/" "key" "!" "m").err =
      some (.invalidMethod "BAD METHOD") ∧
    (call (mockWorld 0) HOST "BAD METHOD" "/echo/" "key" "!" "m").err ≠ (DecodeString "!").2 := by
  refine ⟨by decide, by decide, by decide⟩

/-- C3, amended: for every base URL, method, path, access key and message, in every
environment, if the secret is not valid base64 then `call` returns a nil result and a non-nil
error and hands no request to the transport; the error is the base64 decode error whenever
`http.NewRequest` accepts the method and the URL, and the error of `http.NewRequest`
otherwise. -/
theorem call_invalid_secret (w : World) (url method path accessKey secret message : String)
    (e : GoError) (hsecret : (DecodeString secret).2 = some e) :
    (call w url method path accessKey secret message).result = none ∧
    (call w url method path accessKey secret message).sent = [] ∧
    (call w url method path accessKey secret message).err ≠ none ∧
    (∀ req, NewRequest w method (url ++ path) (stringBytes message) = .ok req →
      (call w url method path accessKey secret message).err = some e) ∧
    (∀ e', NewRequest w method (url ++ path) (stringBytes message) = .error e' →
      (call w url method path accessKey secret message).err = some e') := by
  have hs : (sign w.now method path secret message).err = some e := by
    rw [sign_of_decode_error w.now method path secret message e hsecret]
  rcases hn : NewRequest w method (url ++ path) (stringBytes message) with e' | req
  · rw [call_of_newRequest_error w url method path accessKey secret message e' hn]
    refine ⟨rfl, rfl, by simp, fun _ h => (by cases h), fun _ h => (by cases h; rfl)⟩
  · rw [call_of_sign_error w url method path accessKey secret message req e hn hs]
    refine ⟨rfl, rfl, by simp, fun _ _ => rfl, fun _ h => (by cases h)⟩

/-- Witness of the amended C3: the secret `!` with the method `POST`. -/
theorem call_invalid_secret_witness :
    (call (mockWorld 0) HOST "POST" "/echo/" "key" "!" "m").sent = [] ∧
    (call (mockWorld 0) HOST "POST" "/echo/" "key" "!" "m").err = some (.corruptInput 0) :=
  ⟨(call_invalid_secret (mockWorld 0) HOST "POST" "/echo/" "key" "!" "m" (.corruptInput 0)
      (by decide)).2.1,
   (call_invalid_secret (mockWorld 0) HOST "POST" "/echo/" "key" "!" "m" (.corruptInput 0)
      (by decide)).2.2.2.1 _ rfl⟩

/-- C4, as stated, fails: two different (method, path) pairs give the same canonical string and
the same signature under the same secret, clock reading and message, and two different secret
strings give the same signature for the same request. -/
theorem sign_binding_counterexample :
    ("A\nB", "C") ≠ ("A", "B\nC") ∧
    (sign 0 "A\nB" "C" "QQ==" "m").err = none ∧ (sign 0 "A" "B\nC" "QQ==" "m").err = none ∧
    canonicalString (sign 0 "A\nB" "C" "QQ==" "m").timestamp "A\nB" "C" "m" =
      canonicalString (sign 0 "A" "B\nC" "QQ==" "m").timestamp "A" "B\nC" "m" ∧
    (sign 0 "A\nB" "C" "QQ==" "m").signature = (sign 0 "A" "B\nC" "QQ==" "m").signature ∧
    "QQ==" ≠ "QR==" ∧
    (sign 0 "POST" "/echo/" "QQ==" "m").err = none ∧ (sign 0 "POST" "/echo/" "QR==" "m").err = none ∧
    (sign 0 "POST" "/echo/" "QQ==" "m").signature = (sign 0 "POST" "/echo/" "QR==" "m").signature := by
  rw [sign_of_decode_ok 0 "A\nB" "C" "QQ==" "m" [65] (by decide),
    sign_of_decode_ok 0 "A" "B\nC" "QQ==" "m" [65] (by decide),
    sign_of_decode_ok 0 "POST" "/echo/" "QQ==" "m" [65] (by decide),
    sign_of_decode_ok 0 "POST" "/echo/" "QR==" "m" [65] (by decide)]
  have hc : canonicalString (FormatInt 0) "A\nB" "C" "m" = canonicalString (FormatInt 0) "A" "B\nC" "m" := by
    decide
  refine ⟨by decide, rfl, rfl, hc, ?_, by decide, rfl, rfl, rfl⟩
  simp only [hc]

/-- C4, amended: when neither method nor path contains a line feed, two successful signature
computations that differ in the clock reading, the method, the path or the message sign
different canonical strings; and two successful computations return the same signature exactly
when their HMAC-SHA256 digests are equal (the base64 encoding of the digest loses nothing). -/
theorem sign_binding (now₁ now₂ : Int) (m₁ p₁ s₁ b₁ m₂ p₂ s₂ b₂ : String) (k₁ k₂ : List Nat)
    (h₁ : DecodeString s₁ = (k₁, none)) (h₂ : DecodeString s₂ = (k₂, none))
    (hm₁ : '\n' ∉ m₁.data) (hp₁ : '\n' ∉ p₁.data)
    (hm₂ : '\n' ∉ m₂.data) (hp₂ : '\n' ∉ p₂.data) :
    ((now₁, m₁, p₁, b₁) ≠ (now₂, m₂, p₂, b₂) →
      canonicalString (sign now₁ m₁ p₁ s₁ b₁).timestamp m₁ p₁ b₁ ≠
        canonicalString (sign now₂ m₂ p₂ s₂ b₂).timestamp m₂ p₂ b₂) ∧
    ((sign now₁ m₁ p₁ s₁ b₁).signature = (sign now₂ m₂ p₂ s₂ b₂).signature ↔
      hmacSHA256 k₁ (stringBytes (canonicalString (sign now₁ m₁ p₁ s₁ b₁).timestamp m₁ p₁ b₁)) =
        hmacSHA256 k₂ (stringBytes (canonicalString (sign now₂ m₂ p₂ s₂ b₂).timestamp m₂ p₂ b₂))) := by
  rw [sign_of_decode_ok now₁ m₁ p₁ s₁ b₁ k₁ h₁, sign_of_decode_ok now₂ m₂ p₂ s₂ b₂ k₂ h₂]
  constructor
  · intro hne heq
    obtain ⟨e₁, e₂, e₃, e₄⟩ := canonicalString_injective _ _ _ _ _ _ _ _
      (FormatInt_no_newline now₁) (FormatInt_no_newline now₂) hm₁ hm₂ hp₁ hp₂ heq
    exact hne (by rw [FormatInt_injective _ _ e₁, e₂, e₃, e₄])
  · constructor
    · intro h
      exact EncodeToString_injective _ _ (hmacSHA256_lt _ _) (hmacSHA256_lt _ _) h
    · intro h
      exact congrArg EncodeToString h

/-- Witness of the amended C4: two requests that differ in the path only. -/
theorem sign_binding_witness :
    canonicalString (sign 7 "POST" "/echo/" "QQ==" "m").timestamp "POST" "/echo/" "m" ≠
      canonicalString (sign 7 "POST" "/other/" "QQ==" "m").timestamp "POST" "/other/" "m" :=
  (sign_binding 7 7 "POST" "/echo/" "QQ==" "m" "POST" "/other/" "QQ==" "m" [65] [65]
    (by decide) (by decide) (by decide) (by decide) (by decide) (by decide)).1 (by decide)

/-- C5: the signature is a function of the decoded secret and the canonical string only: two
invocations of `sign` whose secrets decode to the same bytes and whose canonical strings
`timestamp ++ "\n" ++ method ++ "\n" ++ path ++ "\n" ++ message` are equal return the same
signature, namely the value of one fixed function at the key and the canonical string; in
particular equal inputs at equal clock readings give equal signatures. -/
theorem sign_deterministic (now₁ now₂ : Int) (m₁ p₁ s₁ b₁ m₂ p₂ s₂ b₂ : String) (key : List Nat)
    (h₁ : DecodeString s₁ = (key, none)) (h₂ : DecodeString s₂ = (key, none))
    (hdata : canonicalString (sign now₁ m₁ p₁ s₁ b₁).timestamp m₁ p₁ b₁ =
      canonicalString (sign now₂ m₂ p₂ s₂ b₂).timestamp m₂ p₂ b₂) :
    (sign now₁ m₁ p₁ s₁ b₁).signature = (sign now₂ m₂ p₂ s₂ b₂).signature ∧
    (sign now₁ m₁ p₁ s₁ b₁).signature = EncodeToString (hmacSHA256 key (stringBytes
      (canonicalString (sign now₁ m₁ p₁ s₁ b₁).timestamp m₁ p₁ b₁))) := by
  rw [sign_of_decode_ok now₁ m₁ p₁ s₁ b₁ key h₁, sign_of_decode_ok now₂ m₂ p₂ s₂ b₂ key h₂]
    at hdata ⊢
  simp only at hdata
  exact ⟨congrArg (fun d => EncodeToString (hmacSHA256 key (stringBytes d))) hdata, rfl⟩

/-- Witness of C5: two different secret strings that decode to the same byte, and two
different splits of the same canonical string. -/
theorem sign_deterministic_witness :
    (sign 5 "A\nB" "C" "QQ==" "m").signature = (sign 5 "A" "B\nC" "QR==" "m").signature :=
  (sign_deterministic 5 5 "A\nB" "C" "QQ==" "m" "A" "B\nC" "QR==" "m" [65] (by decide) (by decide)
    (by
      rw [sign_of_decode_ok 5 "A\nB" "C" "QQ==" "m" [65] (by decide),
        sign_of_decode_ok 5 "A" "B\nC" "QR==" "m" [65] (by decide)]
      decide)).1

/-- C6, as stated, fails for the empty method: the request handed to the transport has the
method `GET`, not the method passed to `call` (and signed). -/
theorem call_request_counterexample :
    ∃ req, (call (mockWorld 0) HOST "" "/echo/" "key" "QQ==" "m").sent = [req] ∧
      req.Method = "GET" ∧ req.Method ≠ "" := by
  have hs : (sign (mockWorld 0).now "" "/echo/" "QQ==" "m").err = none := by
    rw [sign_of_decode_ok _ "" "/echo/" "QQ==" "m" [65] (by decide)]
  exact ⟨_, call_sent_of_ok (mockWorld 0) HOST "" "/echo/" "key" "QQ==" "m" _ rfl hs,
    by decide, by decide⟩

/-- C6, amended: `call` hands at most one request to the transport, and every request it hands
over has the method passed to `call` (`GET` when that method is empty), the target
`url ++ path`, the bytes of `message` as body, and exactly the four headers `Authorization`,
`Paradigm-API-Timestamp`, `Content-Type` and `Paradigm-API-Signature` (stored under their
canonical names, one value each), where `Authorization` is `"Bearer " ++ accessKey`,
`Content-Type` is `application/json`, and the timestamp and the signature are the two results
of the one successful invocation `sign(method, path, secret, message)`. -/
theorem call_request (w : World) (url method path accessKey secret message : String) :
    (call w url method path accessKey secret message).sent.length ≤ 1 ∧
    ∀ req ∈ (call w url method path accessKey secret message).sent,
      (sign w.now method path secret message).err = none ∧
      req.Method = (if method = "" then "GET" else method) ∧
      req.URL = url ++ path ∧
      req.Body = stringBytes message ∧
      req.Header =
        [("Authorization", ["Bearer " ++ accessKey]),
         ("Paradigm-Api-Timestamp", [(sign w.now method path secret message).timestamp]),
         ("Content-Type", ["application/json"]),
         ("Paradigm-Api-Signature", [(sign w.now method path secret message).signature])] ∧
      req.Header.Values "Authorization" = some ["Bearer " ++ accessKey] ∧
      req.Header.Values "Paradigm-API-Timestamp" =
        some [(sign w.now method path secret message).timestamp] ∧
      req.Header.Values "Content-Type" = some ["application/json"] ∧
      req.Header.Values "Paradigm-API-Signature" =
        some [(sign w.now method path secret message).signature] := by
  rcases call_sent_cases w url method path accessKey secret message with h | ⟨hs, h⟩
  · rw [h]; simp
  · rw [h]
    refine ⟨by simp, ?_⟩
    intro req hreq
    simp only [List.mem_singleton] at hreq
    subst hreq
    exact ⟨hs, rfl, rfl, rfl, rfl, header_values _ _ _⟩

/-- Witness of the amended C6: the request sent for `POST /echo/` in the example world. -/
theorem call_request_witness :
    ∃ req, req ∈ (call (mockWorld 0) HOST "POST" "/echo/" "key" "QQ==" "m").sent ∧
      req.Method = "POST" ∧ req.URL = "https://api.test.paradigm.co/echo/" ∧
      req.Header.Values "Authorization" = some ["Bearer key"] := by
  have hs : (sign (mockWorld 0).now "POST" "/echo/" "QQ==" "m").err = none := by
    rw [sign_of_decode_ok _ "POST" "/echo/" "QQ==" "m" [65] (by decide)]
  have hsent := call_sent_of_ok (mockWorld 0) HOST "POST" "/echo/" "key" "QQ==" "m" _ rfl hs
  have hmem := List.mem_singleton_self
    (⟨if "POST" = "" then "GET" else "POST", HOST ++ "/echo/", stringBytes "m",
      [("Authorization", ["Bearer " ++ "key"]),
       ("Paradigm-Api-Timestamp", [(sign (mockWorld 0).now "POST" "/echo/" "QQ==" "m").timestamp]),
       ("Content-Type", ["application/json"]),
       ("Paradigm-Api-Signature", [(sign (mockWorld 0).now "POST" "/echo/" "QQ==" "m").signature])]⟩
      : Request)
  rw [← hsent] at hmem
  have h := (call_request (mockWorld 0) HOST "POST" "/echo/" "key" "QQ==" "m").2 _ hmem
  exact ⟨_, hmem, h.2.1.trans (by decide), h.2.2.1.trans (by decide),
    h.2.2.2.2.2.1.trans (by decide)⟩

/-- C7: for every method, path and message, every clock reading and every secret that decodes
(the empty secret included), the signature returned by `sign` has exactly 44 characters, all of
the standard base64 alphabet or the padding `=` (43 alphabet characters followed by one `=`),
and `base64.StdEncoding` decodes it without error to exactly 32 bytes, the whole HMAC-SHA256
digest. -/
theorem signature_shape (now : Int) (method path secret message : String) (key : List Nat)
    (hsecret : DecodeString secret = (key, none)) :
    (sign now method path secret message).signature.length = 44 ∧
    (∀ ch ∈ (sign now method path secret message).signature.data, ch ∈ encodeStd ∨ ch = padChar) ∧
    (∃ cs, (sign now method path secret message).signature.data = cs ++ [padChar] ∧
      cs.length = 43 ∧ ∀ ch ∈ cs, ch ∈ encodeStd) ∧
    (DecodeString (sign now method path secret message).signature).2 = none ∧
    (DecodeString (sign now method path secret message).signature).1.length = 32 ∧
    (DecodeString (sign now method path secret message).signature).1 =
      hmacSHA256 key (stringBytes (canonicalString (FormatInt now) method path message)) := by
  rw [sign_of_decode_ok now method path secret message key hsecret]
  simp only
  have hlen := hmacSHA256_length key (stringBytes (canonicalString (FormatInt now) method path message))
  have hdec := decode_encode _
    (hmacSHA256_lt key (stringBytes (canonicalString (FormatInt now) method path message)))
  have hl : (EncodeToString (hmacSHA256 key
      (stringBytes (canonicalString (FormatInt now) method path message)))).length = 44 := by
    show (encode _).length = 44
    rw [encode_length, hlen]
  refine ⟨hl, encode_alphabet _, ?_, ?_, ?_, ?_⟩
  · obtain ⟨cs, hcs, hmem⟩ := encode_mod2 (hmacSHA256 key
      (stringBytes (canonicalString (FormatInt now) method path message))) (by rw [hlen])
    refine ⟨cs, hcs, ?_, hmem⟩
    have := congrArg List.length hcs
    rw [encode_length, hlen] at this
    simp at this
    omega
  · rw [hdec]
  · rw [hdec]; exact hlen
  · rw [hdec]

/-- Witness of C7: the example of the specification, and the empty secret. -/
theorem signature_shape_witness :
    (sign 1700000000123 "POST" "/echo/" "dGVzdC1zZWNyZXQ=" "\x7b\"message\":\"hello\"\x7d").signature.length
      = 44 ∧
    (sign 1700000000123 "POST" "/echo/" "" "\x7b\"message\":\"hello\"\x7d").signature.length = 44 :=
  ⟨(signature_shape 1700000000123 "POST" "/echo/" "dGVzdC1zZWNyZXQ=" "\x7b\"message\":\"hello\"\x7d"
      (stringBytes "test-secret") (by decide)).1,
   (signature_shape 1700000000123 "POST" "/echo/" "" "\x7b\"message\":\"hello\"\x7d"
      [] (by decide)).1⟩

/-- C8, as stated, fails at a clock reading before the epoch: the timestamp carries a sign. -/
theorem timestamp_digits_counterexample :
    (sign (-1) "POST" "/echo/" "QQ==" "m").err = none ∧
    (sign (-1) "POST" "/echo/" "QQ==" "m").timestamp = "-1" ∧
    ¬ (∀ ch ∈ (sign (-1) "POST" "/echo/" "QQ==" "m").timestamp.data, ch.isDigit = true) := by
  rw [sign_of_decode_ok (-1) "POST" "/echo/" "QQ==" "m" [65] (by decide)]
  exact ⟨rfl, by decide, by decide⟩

/-- C8, amended: for every successful invocation of `sign` at a clock reading that is not
negative, the timestamp is a non-empty string of the ASCII digits 0-9 only, whose decimal value
is the clock reading, without a leading zero unless it is the string `0`; at a negative clock
reading it is a minus sign followed by such a rendering of the magnitude. -/
theorem timestamp_digits (now : Int) (method path secret message : String) (key : List Nat)
    (hsecret : DecodeString secret = (key, none)) :
    (0 ≤ now →
      (sign now method path secret message).timestamp.data ≠ [] ∧
      (∀ ch ∈ (sign now method path secret message).timestamp.data, ch.isDigit = true) ∧
      (decimalValue (sign now method path secret message).timestamp.data : Int) = now ∧
      ((sign now method path secret message).timestamp.data.head? = some '0' →
        (sign now method path secret message).timestamp = "0")) ∧
    (now < 0 →
      (sign now method path secret message).timestamp.data = '-' :: formatBits now.natAbs ∧
      (∀ ch ∈ formatBits now.natAbs, ch.isDigit = true) ∧
      (decimalValue (formatBits now.natAbs) : Int) = -now) := by
  rw [sign_of_decode_ok now method path secret message key hsecret]
  constructor
  · intro hnow
    rw [FormatInt_of_nonneg now hnow]
    refine ⟨formatBits_ne_nil _, formatBits_isDigit _, ?_, ?_⟩
    · rw [decimalValue_formatBits]; omega
    · intro hhead
      by_cases h0 : now.natAbs = 0
      · rw [h0]; rfl
      · exact absurd hhead (formatBits_head _ h0)
  · intro hnow
    rw [FormatInt_of_neg now hnow]
    refine ⟨rfl, formatBits_isDigit _, ?_⟩
    rw [decimalValue_formatBits]; omega

/-- Witness of the amended C8: at the clock reading 1700000000123 the timestamp is not empty
and its decimal value is 1700000000123. -/
theorem timestamp_digits_witness :
    (sign 1700000000123 "POST" "/echo/" "QQ==" "m").timestamp.data ≠ [] ∧
    (decimalValue (sign 1700000000123 "POST" "/echo/" "QQ==" "m").timestamp.data : Int) =
      1700000000123 :=
  ⟨((timestamp_digits 1700000000123 "POST" "/echo/" "QQ==" "m" [65] (by decide)).1 (by decide)).1,
   ((timestamp_digits 1700000000123 "POST" "/echo/" "QQ==" "m" [65] (by decide)).1
      (by decide)).2.2.1⟩

/-- C9: for every argument list whose length is not 2, `main` prints the usage message and
nothing else (no invocation of `call`, no request to the transport) and returns normally,
without a fatal exit; for every argument list of length 2, `call` is invoked exactly once. -/
theorem main_arguments (w : World) (args : List String) :
    (args.length ≠ 2 →
      (main w args).events = [.printf "Usage <API key> <Secret>"] ∧
      (main w args).exit = .returned ∧
      (main w args).events.countP Event.isCall = 0 ∧
      (main w args).events.countP Event.isSend = 0) ∧
    (args.length = 2 → (main w args).events.countP Event.isCall = 1) := by
  constructor
  · intro h
    rw [main_usage w args h]
    exact ⟨rfl, rfl, rfl, rfl⟩
  · intro h
    match args, h with
    | [accessKey, secret], _ =>
      rw [main_two]
      split <;>
        simp [List.countP_cons, List.countP_append, Event.isCall, countP_isCall_send]

/-- Witness of C9: no argument, three arguments, and two arguments. -/
theorem main_arguments_witness :
    (main (mockWorld 0) []).exit = .returned ∧
    (main (mockWorld 0) ["a", "b", "c"]).events.countP Event.isCall = 0 ∧
    (main (mockWorld 0) ["key", "QQ=="]).events.countP Event.isCall = 1 :=
  ⟨((main_arguments (mockWorld 0) []).1 (by decide)).2.1,
   ((main_arguments (mockWorld 0) ["a", "b", "c"]).1 (by decide)).2.2.1,
   (main_arguments (mockWorld 0) ["key", "QQ=="]).2 (by decide)⟩

/-- C10: for every pair of arguments, `main` starts by invoking `call` with the base URL
`https://api.test.paradigm.co`, the method `POST`, the path `/echo/`, the access key and the
secret in that order, and the 20-character body `{"message": "hello"}`; every request this
hands to the transport is `POST https://api.test.paradigm.co/echo/` with that body and a
signature over the canonical string `timestamp ++ "\nPOST\n/echo/\n{\"message\": \"hello\"}"`;
when `call` returns an error `main` logs it and exits fatally, and otherwise it logs the
decoded result and returns. -/
theorem main_call (w : World) (accessKey secret : String) :
    (main w [accessKey, secret]).events.head? =
      some (.callInvoked "https://api.test.paradigm.co" "POST" "/echo/" accessKey secret
        "\x7b\"message\": \"hello\"\x7d") ∧
    "\x7b\"message\": \"hello\"\x7d".length = 20 ∧
    (∀ req ∈ (call w HOST "POST" "/echo/" accessKey secret "\x7b\"message\": \"hello\"\x7d").sent,
      Event.send req ∈ (main w [accessKey, secret]).events ∧
      req.Method = "POST" ∧ req.URL = "https://api.test.paradigm.co/echo/" ∧
      req.Body = stringBytes "\x7b\"message\": \"hello\"\x7d" ∧
      ∃ key, DecodeString secret = (key, none) ∧
        req.Header.Values "Paradigm-API-Timestamp" = some [FormatInt w.now] ∧
        req.Header.Values "Paradigm-API-Signature" = some [EncodeToString (hmacSHA256 key
          (stringBytes (FormatInt w.now ++ "\nPOST\n/echo/\n\x7b\"message\": \"hello\"\x7d")))]) ∧
    (∀ err, (call w HOST "POST" "/echo/" accessKey secret "\x7b\"message\": \"hello\"\x7d").err
        = some err →
      (main w [accessKey, secret]).exit = .fatal ∧
      (main w [accessKey, secret]).events.getLast? = some (.logFatal err)) ∧
    ((call w HOST "POST" "/echo/" accessKey secret "\x7b\"message\": \"hello\"\x7d").err = none →
      (main w [accessKey, secret]).exit = .returned ∧
      (main w [accessKey, secret]).events.getLast? = some (.logPrintln
        (call w HOST "POST" "/echo/" accessKey secret "\x7b\"message\": \"hello\"\x7d").result)) := by
  refine ⟨?_, by decide, ?_, ?_, ?_⟩
  · rw [main_two]; split <;> rfl
  · intro req hreq
    have hmem : Event.send req ∈ (main w [accessKey, secret]).events := by
      rw [main_two]
      split <;> simp [hreq]
    rcases call_sent_cases w HOST "POST" "/echo/" accessKey secret
      "\x7b\"message\": \"hello\"\x7d" with h | ⟨hs, h⟩
    · rw [h] at hreq; cases hreq
    · rw [h] at hreq
      simp only [List.mem_singleton] at hreq
      subst hreq
      rcases hd : DecodeString secret with ⟨key, derr⟩
      cases derr with
      | some e =>
        rw [sign_of_decode_error _ _ _ _ _ e (by rw [hd])] at hs
        cases hs
      | none =>
        refine ⟨hmem, ?_, ?_, rfl, key, rfl, ?_, ?_⟩
        · show (if "POST" = "" then "GET" else "POST") = "POST"
          decide
        · show HOST ++ "/echo/" = "https://api.test.paradigm.co/echo/"
          decide
        · rw [sign_of_decode_ok _ _ _ _ _ key hd]
          exact (header_values _ _ _).2.1
        · rw [sign_of_decode_ok _ _ _ _ _ key hd]
          refine (header_values _ _ _).2.2.2.trans ?_
          simp [canonicalString, String.append_assoc]
  · intro err herr
    rw [main_two, herr]
    exact ⟨rfl, List.getLast?_concat _⟩
  · intro herr
    rw [main_two, herr]
    exact ⟨rfl, List.getLast?_concat _⟩

/-- Witness of C10: in the example world a valid secret ends in a normal return, and the
secret `!` in a fatal exit. -/
theorem main_call_witness :
    (main (mockWorld 0) ["key", "QQ=="]).exit = .returned ∧
    (main (mockWorld 0) ["key", "!"]).exit = .fatal :=
  ⟨((main_call (mockWorld 0) "key" "QQ==").2.2.2.2 (by decide)).1,
   ((main_call (mockWorld 0) "key" "!").2.2.2.1 (.corruptInput 0) (by decide)).1⟩

end Signature
